import Mathlib

/-!
Verification of the PortMaster-Info maintenance scripts.

The three scripts (tools/igdb_popularity.py, tools/rank_games_by_popularity.py,
tools/update_game_ids.py) operate on JSON dictionaries.  We embed Python
dictionaries as association lists of (String, value) pairs in insertion order:
lookup finds the first matching key, assignment updates an existing key in
place or appends a fresh one at the end, and deletion removes the key.  A
Python dict never holds a duplicate key, which appears below as NodupKeys
hypotheses where a proof needs it.  Python floats are embedded as rationals:
every arithmetic step the scripts perform (sums of products, one division) is
exact at the granularity the specification talks about.
-/

namespace PortMasterInfo

/-- Association-list embedding of a Python dict with string keys. -/
abbrev Dict (α : Type) := List (String × α)

/-- Lookup of a key, first match wins (Python d[k] / d.get(k)). -/
def dlookup {α : Type} : Dict α → String → Option α
  | [], _ => none
  | (k, v) :: rest, key => if k = key then some v else dlookup rest key

/-- Assignment d[k] = v with Python dict semantics: overwrite in place if the
key exists, otherwise append at the end. -/
def dinsert {α : Type} : Dict α → String → α → Dict α
  | [], key, v => [(key, v)]
  | (k, w) :: rest, key, v =>
    if k = key then (k, v) :: rest else (k, w) :: dinsert rest key v

/-- Deletion del d[k]: removes the first pair carrying the key. -/
def derase {α : Type} : Dict α → String → Dict α
  | [], _ => []
  | (k, w) :: rest, key => if k = key then rest else (k, w) :: derase rest key

/-- The keys of a dict, in order. -/
def keysOf {α : Type} (m : Dict α) : List String := m.map Prod.fst

/-- A real Python dict has pairwise distinct keys. -/
def NodupKeys {α : Type} (m : Dict α) : Prop := (keysOf m).Nodup

instance nodupKeysDecidable {α : Type} (m : Dict α) : Decidable (NodupKeys m) :=
  inferInstanceAs (Decidable (keysOf m).Nodup)

lemma dlookup_dinsert_self {α : Type} (m : Dict α) (k : String) (v : α) :
    dlookup (dinsert m k v) k = some v := by
  induction m with
  | nil => simp [dinsert, dlookup]
  | cons p rest ih =>
    obtain ⟨k0, w⟩ := p
    by_cases hk : k0 = k <;> simp [dinsert, dlookup, hk, ih]

lemma dlookup_dinsert_ne {α : Type} (m : Dict α) (k k1 : String) (v : α)
    (hne : k ≠ k1) : dlookup (dinsert m k v) k1 = dlookup m k1 := by
  induction m with
  | nil => simp [dinsert, dlookup, hne]
  | cons p rest ih =>
    obtain ⟨k0, w⟩ := p
    by_cases hk : k0 = k
    · subst hk
      simp [dinsert, dlookup, hne]
    · simp [dinsert, dlookup, hk, ih]

lemma dlookup_derase_ne {α : Type} (m : Dict α) (k k1 : String)
    (hne : k ≠ k1) : dlookup (derase m k) k1 = dlookup m k1 := by
  induction m with
  | nil => simp [derase]
  | cons p rest ih =>
    obtain ⟨k0, w⟩ := p
    by_cases hk : k0 = k
    · subst hk
      simp [derase, dlookup, hne]
    · by_cases hk1 : k0 = k1
      · subst hk1
        simp [derase, dlookup, hk]
      · simp [derase, dlookup, hk, hk1, ih]

lemma dlookup_isSome_iff_mem_keys {α : Type} (m : Dict α) (k : String) :
    (dlookup m k).isSome ↔ k ∈ keysOf m := by
  induction m with
  | nil => simp [dlookup, keysOf]
  | cons p rest ih =>
    obtain ⟨k0, w⟩ := p
    by_cases hk : k0 = k
    · subst hk
      simp [dlookup, keysOf]
    · simp [dlookup, keysOf, hk, Ne.symm hk, ih]

lemma keysOf_cons {α : Type} (k0 : String) (w : α) (rest : Dict α) :
    keysOf ((k0, w) :: rest) = k0 :: keysOf rest := rfl

lemma nodupKeys_cons {α : Type} {k0 : String} {w : α} {rest : Dict α}
    (h : NodupKeys ((k0, w) :: rest)) :
    k0 ∉ keysOf rest ∧ NodupKeys rest := by
  rw [NodupKeys, keysOf_cons, List.nodup_cons] at h
  exact h

lemma dlookup_derase_self {α : Type} (m : Dict α) (k : String)
    (h : NodupKeys m) : dlookup (derase m k) k = none := by
  induction m with
  | nil => simp [derase, dlookup]
  | cons p rest ih =>
    obtain ⟨k0, w⟩ := p
    have h' : NodupKeys rest := (nodupKeys_cons h).2
    by_cases hk : k0 = k
    · subst hk
      have hnotmem : k0 ∉ keysOf rest := (nodupKeys_cons h).1
      have hnone : dlookup rest k0 = none := by
        cases hcase : dlookup rest k0 with
        | none => rfl
        | some v =>
          exact absurd
            ((dlookup_isSome_iff_mem_keys rest k0).mp (by simp [hcase])) hnotmem
      simpa [derase] using hnone
    · simp [derase, dlookup, hk, ih h']

lemma keysOf_dinsert_mem {α : Type} (m : Dict α) (k : String) (v : α)
    (h : k ∈ keysOf m) : keysOf (dinsert m k v) = keysOf m := by
  induction m with
  | nil => simp [keysOf] at h
  | cons p rest ih =>
    obtain ⟨k0, w⟩ := p
    by_cases hk : k0 = k
    · subst hk
      simp [dinsert, keysOf]
    · have hmem : k ∈ keysOf rest := by
        rcases (by simpa [keysOf] using h : k = k0 ∨ k ∈ keysOf rest) with h1 | h1
        · exact absurd h1.symm hk
        · exact h1
      simp [dinsert, hk, keysOf_cons, ih hmem]

lemma keysOf_dinsert_not_mem {α : Type} (m : Dict α) (k : String) (v : α)
    (h : k ∉ keysOf m) : keysOf (dinsert m k v) = keysOf m ++ [k] := by
  induction m with
  | nil => simp [dinsert, keysOf]
  | cons p rest ih =>
    obtain ⟨k0, w⟩ := p
    have hk : k0 ≠ k := by
      intro he
      exact h (by simp [keysOf, he])
    have hrest : k ∉ keysOf rest := fun hc => h (by simp [keysOf_cons, hc])
    simp [dinsert, hk, keysOf_cons, ih hrest]

lemma nodupKeys_dinsert {α : Type} (m : Dict α) (k : String) (v : α)
    (h : NodupKeys m) : NodupKeys (dinsert m k v) := by
  by_cases hmem : k ∈ keysOf m
  · rw [NodupKeys, keysOf_dinsert_mem m k v hmem]
    exact h
  · rw [NodupKeys, keysOf_dinsert_not_mem m k v hmem]
    simp only [List.nodup_append, List.nodup_cons, List.not_mem_nil,
      not_false_iff, List.nodup_nil, and_true, true_and]
    constructor
    · exact h
    · intro a ha hb
      simp only [List.mem_singleton] at hb
      exact hmem (hb ▸ ha)

lemma keysOf_derase_sublist {α : Type} (m : Dict α) (k : String) :
    (keysOf (derase m k)).Sublist (keysOf m) := by
  induction m with
  | nil => simp [derase, keysOf]
  | cons p rest ih =>
    obtain ⟨k0, w⟩ := p
    by_cases hk : k0 = k
    · subst hk
      simp only [derase, if_pos rfl, keysOf_cons]
      exact List.sublist_cons_self k0 (keysOf rest)
    · simp only [derase, if_neg hk, keysOf_cons]
      exact List.Sublist.cons₂ k0 ih

lemma nodupKeys_derase {α : Type} (m : Dict α) (k : String)
    (h : NodupKeys m) : NodupKeys (derase m k) := by
  exact List.Nodup.sublist (keysOf_derase_sublist m k) h

lemma dinsert_eq_self_of_lookup {α : Type} (m : Dict α) (k : String) (v : α)
    (h : dlookup m k = some v) : dinsert m k v = m := by
  induction m with
  | nil => simp [dlookup] at h
  | cons p rest ih =>
    obtain ⟨k0, w⟩ := p
    by_cases hk : k0 = k
    · subst hk
      simp [dlookup] at h
      simp [dinsert, h]
    · simp [dlookup, hk] at h
      simp [dinsert, hk, ih h]

/-- Python str.isdigit for ASCII content: nonempty and every char a digit. -/
def isDigits (s : String) : Bool := !s.data.isEmpty && s.data.all Char.isDigit

/-! ## Scorer (tools/rank_games_by_popularity.py) -/

/-- METRIC_WEIGHTS table from rank_games_by_popularity.py, lines 28 to 39. -/
def METRIC_WEIGHTS : Dict ℚ :=
  [("1", 1), ("2", 2), ("3", 5), ("4", 4), ("5", 3),
   ("6", 3), ("7", 1), ("8", 2), ("9", 4), ("10", 5/2)]

/-- Python max over a list of values; the script only applies it to the
nonempty values of METRIC_WEIGHTS. -/
def pyMax : List ℚ → ℚ
  | [] => 0
  | x :: xs => xs.foldl max x

/-- calculate_popularity_score from rank_games_by_popularity.py, lines 103
to 119: return 0 on an empty dict, otherwise the weighted sum (default weight
1.0 for codes outside the table) divided by (count times max weight). -/
def calculate_popularity_score (metrics : Dict ℚ) : ℚ :=
  if metrics.isEmpty then 0
  else
    let score := metrics.foldl
      (fun acc kv => acc + kv.2 * ((dlookup METRIC_WEIGHTS kv.1).getD 1)) 0
    let max_weight := pyMax (METRIC_WEIGHTS.map Prod.snd)
    score / (metrics.length * max_weight)

/-- The numerator of the specification formula: sum over present metrics of
value times weight of the code. -/
def weightedSum (metrics : Dict ℚ) : ℚ :=
  (metrics.map (fun kv => kv.2 * ((dlookup METRIC_WEIGHTS kv.1).getD 1))).sum

/-- Score as the specification words it: weighted sum divided by (number of
present metrics times the maximum weight in the table). -/
def specScore (metrics : Dict ℚ) : ℚ :=
  weightedSum metrics / (metrics.length * pyMax (METRIC_WEIGHTS.map Prod.snd))

lemma foldl_add_weight (metrics : Dict ℚ) (a : ℚ) :
    metrics.foldl
      (fun acc kv => acc + kv.2 * ((dlookup METRIC_WEIGHTS kv.1).getD 1)) a
    = a + weightedSum metrics := by
  induction metrics generalizing a with
  | nil => simp [weightedSum]
  | cons kv rest ih =>
    simp only [List.foldl_cons, ih, weightedSum, List.map_cons, List.sum_cons]
    ring

lemma pyMax_METRIC_WEIGHTS : pyMax (METRIC_WEIGHTS.map Prod.snd) = 5 := by
  norm_num [METRIC_WEIGHTS, pyMax]

/-- C1: the score equals the spec formula (weighted sum over the count times
maximum table weight), an empty metric dict scores exactly 0, and the literal
example from the spec, metrics 3 maps to 10 and 4 maps to 10, scores 9. -/
theorem scorer_matches_spec_formula :
    (∀ metrics : Dict ℚ, calculate_popularity_score metrics = specScore metrics)
    ∧ calculate_popularity_score [] = 0
    ∧ calculate_popularity_score [("3", 10), ("4", 10)] = 9 := by
  refine ⟨?_, ?_, ?_⟩
  · intro metrics
    cases metrics with
    | nil => simp [calculate_popularity_score, specScore, weightedSum]
    | cons kv rest =>
      simp only [calculate_popularity_score, List.isEmpty_cons,
        Bool.false_eq_true, if_false]
      rw [foldl_add_weight, zero_add]
      rfl
  · simp [calculate_popularity_score]
  · have h3 : dlookup METRIC_WEIGHTS "3" = some 5 := rfl
    have h4 : dlookup METRIC_WEIGHTS "4" = some 4 := rfl
    rw [calculate_popularity_score]
    norm_num [h3, h4, pyMax_METRIC_WEIGHTS]

/-- C10: the divisor of the normalization is strictly positive for every
nonempty metric dict, because the maximum weight of the shipped table is 5. -/
theorem scorer_divisor_pos :
    pyMax (METRIC_WEIGHTS.map Prod.snd) = 5
    ∧ ∀ metrics : Dict ℚ, metrics ≠ [] →
        0 < (metrics.length : ℚ) * pyMax (METRIC_WEIGHTS.map Prod.snd) := by
  refine ⟨pyMax_METRIC_WEIGHTS, ?_⟩
  intro metrics hne
  rw [pyMax_METRIC_WEIGHTS]
  have hlen : 0 < metrics.length := List.length_pos.mpr hne
  positivity

/-- Witness for C10 at the concrete one-entry dict with metric code 3. -/
theorem scorer_divisor_pos_witness :
    ([("3", (10 : ℚ))] : Dict ℚ) ≠ []
    ∧ 0 < (([("3", (10 : ℚ))] : Dict ℚ).length : ℚ)
        * pyMax (METRIC_WEIGHTS.map Prod.snd) :=
  ⟨by simp, scorer_divisor_pos.2 [("3", (10 : ℚ))] (by simp)⟩

/-! ## Retrying HTTP request (tools/igdb_popularity.py, retry_request) -/

/-- Outcome of one call to requests.request: either a response carrying a
status code, or a network-level exception. -/
inductive AttemptOutcome where
  | response (status : Nat)
  | failure
deriving DecidableEq

/-- An attempt that does not produce a usable response: an exception, or a
response whose status makes raise_for_status raise (400 and above). -/
def attemptFails : AttemptOutcome → Bool
  | .failure => true
  | .response s => 400 ≤ s

/-- Loop body of retry_request (igdb_popularity.py, lines 55 to 70), folded
over the list of attempt indices range(5).  The environment is a function
from attempt index to that attempt's outcome.  Returns the response status
the caller receives (none after exhaustion) paired with the number of request
attempts actually issued.  A 400 status with attempts remaining takes the
explicit retry branch; any other error status or an exception falls into the
except branch; both continue the loop. -/
def retryLoop (results : Nat → AttemptOutcome) : List Nat → Option Nat × Nat
  | [] => (none, 0)
  | attempt :: rest =>
    match results attempt with
    | .failure =>
      let p := retryLoop results rest
      (p.1, p.2 + 1)
    | .response s =>
      if s = 400 ∧ attempt < 4 then
        let p := retryLoop results rest
        (p.1, p.2 + 1)
      else if 400 ≤ s then
        let p := retryLoop results rest
        (p.1, p.2 + 1)
      else (some s, 1)

/-- retry_request: run the loop body over attempt indices 0 to 4. -/
def retry_request (results : Nat → AttemptOutcome) : Option Nat × Nat :=
  retryLoop results (List.range 5)

lemma retryLoop_attempts_le (results : Nat → AttemptOutcome) (l : List Nat) :
    (retryLoop results l).2 ≤ l.length := by
  induction l with
  | nil => simp [retryLoop]
  | cons attempt rest ih =>
    cases hres : results attempt with
    | failure => simpa [retryLoop, hres] using ih
    | response s =>
      by_cases h1 : s = 400 ∧ attempt < 4
      · simpa [retryLoop, hres, h1] using ih
      · by_cases h2 : 400 ≤ s
        · simpa [retryLoop, hres, h1, h2] using ih
        · simp [retryLoop, hres, h1, h2]

lemma retryLoop_all_fail (results : Nat → AttemptOutcome) (l : List Nat)
    (h : ∀ i ∈ l, attemptFails (results i) = true) :
    (retryLoop results l).1 = none := by
  induction l with
  | nil => simp [retryLoop]
  | cons attempt rest ih =>
    have hrest : ∀ i ∈ rest, attemptFails (results i) = true :=
      fun i hi => h i (List.mem_cons_of_mem attempt hi)
    have hhead : attemptFails (results attempt) = true :=
      h attempt (List.mem_cons_self attempt rest)
    cases hres : results attempt with
    | failure => simpa [retryLoop, hres] using ih hrest
    | response s =>
      have hs : 400 ≤ s := by simpa [attemptFails, hres] using hhead
      by_cases h1 : s = 400 ∧ attempt < 4
      · simpa [retryLoop, hres, h1] using ih hrest
      · simp [retryLoop, hres, h1, hs, ih hrest]

/-- C2: retry_request issues at most 5 attempts, and when every one of the
five attempts fails (exception, bad-request status, or any other error
status) it returns none rather than propagating an error. -/
theorem retry_request_bounded_and_absent (results : Nat → AttemptOutcome) :
    (retry_request results).2 ≤ 5
    ∧ ((∀ i < 5, attemptFails (results i) = true) →
        (retry_request results).1 = none) := by
  constructor
  · simpa using retryLoop_attempts_le results (List.range 5)
  · intro h
    exact retryLoop_all_fail results (List.range 5)
      (fun i hi => h i (List.mem_range.mp hi))

/-- Witness for C2 at the environment in which every attempt raises a
network exception. -/
theorem retry_request_bounded_and_absent_witness :
    (retry_request (fun _ => AttemptOutcome.failure)).2 ≤ 5
    ∧ ((∀ i < 5, attemptFails ((fun _ => AttemptOutcome.failure) i) = true) →
        (retry_request (fun _ => AttemptOutcome.failure)).1 = none)
    ∧ (∀ i < 5, attemptFails ((fun _ => AttemptOutcome.failure) i) = true)
    ∧ (retry_request (fun _ => AttemptOutcome.failure)).1 = none := by
  have h := retry_request_bounded_and_absent (fun _ => AttemptOutcome.failure)
  have hall : ∀ i < 5,
      attemptFails ((fun _ => AttemptOutcome.failure) i) = true := by
    intro i _
    rfl
  exact ⟨h.1, h.2, hall, h.2 hall⟩

/-! ## Popularity Merger (tools/igdb_popularity.py, main, lines 189 to 216) -/

/-- Metric sub-mapping of one entry: metric-type code to value. -/
abbrev Metrics := Dict ℚ

/-- Body of the legacy-key loop in main (igdb_popularity.py, lines 196 to
206), for one key of the snapshot of prior keys: if the key is purely
numeric and present in the current external-identifier mapping, copy its
sub-mapping to the canonical game key when that key is not yet present, then
delete the numeric key. -/
def legacyStep (igdb_mapping : Dict String) (m : Dict Metrics)
    (key : String) : Dict Metrics :=
  if isDigits key then
    match dlookup igdb_mapping key with
    | some game_key =>
      let m' :=
        if (dlookup m game_key).isSome then m
        else
          match dlookup m key with
          | some v => dinsert m game_key v
          | none => m
      derase m' key
    | none => m
  else m

/-- Legacy-key reconciliation: fold the loop body over the snapshot
list(existing_metrics.keys()) taken before any mutation. -/
def legacyReconcile (igdb_mapping : Dict String) (m : Dict Metrics) :
    Dict Metrics :=
  (keysOf m).foldl (legacyStep igdb_mapping) m

/-- Overlay of one dict on top of a base dict: the Python loop of
assignments base[k] = v for (k, v) in over.items(), which is also exactly
dict.update. -/
def overlay {α : Type} (base over : Dict α) : Dict α :=
  over.foldl (fun acc kv => dinsert acc kv.1 kv.2) base

/-- The persisted popularity store: type-code-to-name mapping plus
entry-name-to-metrics mapping. -/
structure PopStore where
  popularity_types : Dict String
  popularity_metrics : Dict Metrics
deriving DecidableEq

/-- Merge step of main (igdb_popularity.py, lines 189 to 216): when a prior
store was loaded, reconcile legacy numeric keys, overlay freshly fetched
metrics, and overlay prior type names on top of freshly fetched ones;
otherwise the fresh data is the output. -/
def runMerge (existing : Option PopStore) (metrics_by_game : Dict Metrics)
    (types_dict : Dict String) (igdb_mapping : Dict String) : PopStore :=
  match existing with
  | none => ⟨types_dict, metrics_by_game⟩
  | some st =>
    ⟨overlay types_dict st.popularity_types,
     overlay (legacyReconcile igdb_mapping st.popularity_metrics)
       metrics_by_game⟩

lemma dlookup_eq_none_of_not_mem_keys {α : Type} (m : Dict α) (k : String)
    (h : k ∉ keysOf m) : dlookup m k = none := by
  cases hcase : dlookup m k with
  | none => rfl
  | some v =>
    exact absurd ((dlookup_isSome_iff_mem_keys m k).mp (by simp [hcase])) h

/-- C3: the legacy-key loop body, on a purely numeric prior key that the
current external-identifier mapping resolves to a canonical game key:
the numeric key is deleted regardless, the sub-mapping lands under the
canonical key only when that key was absent, an already present canonical
entry is untouched, and every other key is untouched. -/
theorem legacy_step_moves_and_deletes (igdb_mapping : Dict String)
    (m : Dict Metrics) (key game_key : String) (v : Metrics)
    (hd : isDigits key = true)
    (hig : dlookup igdb_mapping key = some game_key)
    (hv : dlookup m key = some v)
    (hnd : NodupKeys m) :
    dlookup (legacyStep igdb_mapping m key) key = none
    ∧ (dlookup m game_key = none → game_key ≠ key →
        dlookup (legacyStep igdb_mapping m key) game_key = some v)
    ∧ (∀ w, dlookup m game_key = some w → game_key ≠ key →
        dlookup (legacyStep igdb_mapping m key) game_key = some w)
    ∧ (∀ k1, k1 ≠ key → k1 ≠ game_key →
        dlookup (legacyStep igdb_mapping m key) k1 = dlookup m k1) := by
  refine ⟨?_, ?_, ?_, ?_⟩
  · by_cases hgm : (dlookup m game_key).isSome
    · simp only [legacyStep, hd, if_true, hig]
      rw [if_pos hgm]
      exact dlookup_derase_self m key hnd
    · simp only [legacyStep, hd, if_true, hig]
      rw [if_neg hgm, hv]
      exact dlookup_derase_self (dinsert m game_key v) key
        (nodupKeys_dinsert m game_key v hnd)
  · intro hnone hne
    simp only [legacyStep, hd, if_true, hig]
    rw [if_neg (by simp [hnone]), hv]
    rw [dlookup_derase_ne (dinsert m game_key v) key game_key
      (fun he => hne he.symm)]
    exact dlookup_dinsert_self m game_key v
  · intro w hsome hne
    simp only [legacyStep, hd, if_true, hig]
    rw [if_pos (by simp [hsome])]
    rw [dlookup_derase_ne m key game_key (fun he => hne he.symm)]
    exact hsome
  · intro k1 hne1 hne2
    by_cases hgm : (dlookup m game_key).isSome
    · simp only [legacyStep, hd, if_true, hig]
      rw [if_pos hgm]
      exact dlookup_derase_ne m key k1 (fun he => hne1 he.symm)
    · simp only [legacyStep, hd, if_true, hig]
      rw [if_neg hgm, hv]
      rw [dlookup_derase_ne (dinsert m game_key v) key k1
        (fun he => hne1 he.symm)]
      exact dlookup_dinsert_ne m game_key k1 v (fun he => hne2 he.symm)

/-- Witness for C3: the prior store holds metrics under legacy key 12 and
under canonical key a; the identifier mapping sends 12 to game; after the
loop body the numeric key is gone, game holds the moved sub-mapping and a is
untouched. -/
theorem legacy_step_moves_and_deletes_witness :
    isDigits "12" = true
    ∧ dlookup ([("12", "game")] : Dict String) "12" = some "game"
    ∧ dlookup ([("12", [("1", (2 : ℚ))]), ("a", [("2", (3 : ℚ))])] :
        Dict Metrics) "12" = some [("1", (2 : ℚ))]
    ∧ dlookup (legacyStep [("12", "game")]
        [("12", [("1", (2 : ℚ))]), ("a", [("2", (3 : ℚ))])] "12") "12" = none
    ∧ dlookup (legacyStep [("12", "game")]
        [("12", [("1", (2 : ℚ))]), ("a", [("2", (3 : ℚ))])] "12") "game"
        = some [("1", (2 : ℚ))]
    ∧ dlookup (legacyStep [("12", "game")]
        [("12", [("1", (2 : ℚ))]), ("a", [("2", (3 : ℚ))])] "12") "a"
        = some [("2", (3 : ℚ))] := by
  have h := legacy_step_moves_and_deletes [("12", "game")]
    [("12", [("1", (2 : ℚ))]), ("a", [("2", (3 : ℚ))])] "12" "game"
    [("1", (2 : ℚ))] (by decide) rfl rfl (by decide)
  refine ⟨by decide, rfl, rfl, h.1, h.2.1 rfl (by decide), ?_⟩
  rw [h.2.2.2 "a" (by decide) (by decide)]
  rfl

lemma overlay_lookup {α : Type} :
    ∀ (l base : Dict α), NodupKeys l → ∀ k : String,
      dlookup (overlay base l) k = (dlookup l k <|> dlookup base k) := by
  intro l
  induction l with
  | nil =>
    intro base _ k
    simp [overlay, dlookup]
  | cons kv rest ih =>
    intro base hnd k
    obtain ⟨k0, v⟩ := kv
    have h' : NodupKeys rest := (nodupKeys_cons hnd).2
    have hnotmem : k0 ∉ keysOf rest := (nodupKeys_cons hnd).1
    have hstep : overlay base ((k0, v) :: rest) = overlay (dinsert base k0 v) rest := rfl
    rw [hstep, ih (dinsert base k0 v) h' k]
    by_cases hk : k0 = k
    · subst hk
      rw [dlookup_eq_none_of_not_mem_keys rest k0 hnotmem]
      simp [dlookup, dlookup_dinsert_self]
    · rw [dlookup_dinsert_ne base k0 k v hk]
      simp [dlookup, hk]

lemma legacyStep_preserves_nonNumeric (igdb_mapping : Dict String)
    (m : Dict Metrics) (key X : String) (v : Metrics)
    (hX : isDigits X = false) (hv : dlookup m X = some v) :
    dlookup (legacyStep igdb_mapping m key) X = some v := by
  by_cases hd : isDigits key
  · cases hig : dlookup igdb_mapping key with
    | none => simpa [legacyStep, hd, hig] using hv
    | some gk =>
      have hkX : key ≠ X := by
        intro he
        rw [he, hX] at hd
        exact Bool.false_ne_true hd
      by_cases hgm : (dlookup m gk).isSome
      · simp only [legacyStep, hd, if_true, hig]
        rw [if_pos hgm, dlookup_derase_ne m key X hkX]
        exact hv
      · have hgkX : gk ≠ X := by
          intro he
          subst he
          exact hgm (by simp [hv])
        simp only [legacyStep, hd, if_true, hig]
        rw [if_neg hgm]
        cases hk2 : dlookup m key with
        | none =>
          rw [dlookup_derase_ne m key X hkX]
          exact hv
        | some w =>
          rw [dlookup_derase_ne _ key X hkX, dlookup_dinsert_ne m gk X w hgkX]
          exact hv
  · simpa [legacyStep, hd] using hv

lemma legacyFold_preserves_nonNumeric (igdb_mapping : Dict String)
    (keys : List String) (m : Dict Metrics) (X : String) (v : Metrics)
    (hX : isDigits X = false) (hv : dlookup m X = some v) :
    dlookup (keys.foldl (legacyStep igdb_mapping) m) X = some v := by
  induction keys generalizing m with
  | nil => exact hv
  | cons key rest ih =>
    exact ih (legacyStep igdb_mapping m key)
      (legacyStep_preserves_nonNumeric igdb_mapping m key X v hX hv)

lemma legacyReconcile_preserves_nonNumeric (igdb_mapping : Dict String)
    (m : Dict Metrics) (X : String) (v : Metrics)
    (hX : isDigits X = false) (hv : dlookup m X = some v) :
    dlookup (legacyReconcile igdb_mapping m) X = some v :=
  legacyFold_preserves_nonNumeric igdb_mapping (keysOf m) m X v hX hv

/-- C4: a canonical (non-numeric) entry name present in the prior store
survives the whole merge; its merged sub-mapping is the freshly fetched one
when the entry was fetched this run, and the prior one otherwise. -/
theorem merge_keeps_canonical_entries (st : PopStore) (fetched : Dict Metrics)
    (types_dict igdb_mapping : Dict String) (X : String) (v : Metrics)
    (hX : isDigits X = false)
    (hv : dlookup st.popularity_metrics X = some v)
    (hf : NodupKeys fetched) :
    dlookup
      (runMerge (some st) fetched types_dict igdb_mapping).popularity_metrics X
      = some ((dlookup fetched X).getD v) := by
  show dlookup
    (overlay (legacyReconcile igdb_mapping st.popularity_metrics) fetched) X = _
  rw [overlay_lookup fetched _ hf X,
    legacyReconcile_preserves_nonNumeric igdb_mapping st.popularity_metrics X v
      hX hv]
  cases dlookup fetched X <;> simp

/-- Witness for C4: prior entry x with old metrics, fresh fetch for x with
new metrics; the merged store holds the freshly fetched sub-mapping. -/
theorem merge_keeps_canonical_entries_witness :
    isDigits "x" = false
    ∧ dlookup ((⟨[], [("x", [("1", (1 : ℚ))])]⟩ : PopStore).popularity_metrics)
        "x" = some [("1", (1 : ℚ))]
    ∧ NodupKeys ([("x", [("2", (5 : ℚ))])] : Dict Metrics)
    ∧ dlookup (runMerge (some ⟨[], [("x", [("1", (1 : ℚ))])]⟩)
        [("x", [("2", (5 : ℚ))])] [] []).popularity_metrics "x"
        = some ((dlookup ([("x", [("2", (5 : ℚ))])] : Dict Metrics) "x").getD
            [("1", (1 : ℚ))]) :=
  ⟨by decide, rfl, by decide,
    merge_keeps_canonical_entries ⟨[], [("x", [("1", (1 : ℚ))])]⟩
      [("x", [("2", (5 : ℚ))])] [] [] "x" [("1", (1 : ℚ))] (by decide) rfl
      (by decide)⟩

/-- C6: type-name reconciliation takes the freshly fetched names as base and
overlays the prior persisted names; merged lookups give the prior name when
present, otherwise the fresh name, so every key of either mapping is present
in the result. -/
theorem type_reconciliation_prior_wins (st : PopStore) (fetched : Dict Metrics)
    (types_dict igdb_mapping : Dict String)
    (hnd : NodupKeys st.popularity_types) :
    (∀ k, dlookup
        (runMerge (some st) fetched types_dict igdb_mapping).popularity_types k
        = (dlookup st.popularity_types k <|> dlookup types_dict k))
    ∧ (∀ k, k ∈ keysOf types_dict ∨ k ∈ keysOf st.popularity_types →
        (dlookup
          (runMerge (some st) fetched types_dict igdb_mapping).popularity_types
            k).isSome) := by
  have h1 : ∀ k, dlookup
      (runMerge (some st) fetched types_dict igdb_mapping).popularity_types k
      = (dlookup st.popularity_types k <|> dlookup types_dict k) :=
    fun k => overlay_lookup st.popularity_types types_dict hnd k
  refine ⟨h1, ?_⟩
  intro k hk
  rw [h1 k]
  rcases hk with hk | hk
  · have h2 : (dlookup types_dict k).isSome :=
      (dlookup_isSome_iff_mem_keys types_dict k).mpr hk
    cases hcase : dlookup st.popularity_types k with
    | none => simpa using h2
    | some w => simp
  · have h2 : (dlookup st.popularity_types k).isSome :=
      (dlookup_isSome_iff_mem_keys st.popularity_types k).mpr hk
    cases hcase : dlookup st.popularity_types k with
    | none => simp [hcase] at h2
    | some w => simp

/-- Witness for C6: prior name Old for code 1 beats fresh name New; fresh
code 2 is kept. -/
theorem type_reconciliation_prior_wins_witness :
    NodupKeys (([("1", "Old")]) : Dict String)
    ∧ dlookup (runMerge (some ⟨[("1", "Old")], []⟩) []
        [("1", "New"), ("2", "Extra")] []).popularity_types "1" = some "Old"
    ∧ dlookup (runMerge (some ⟨[("1", "Old")], []⟩) []
        [("1", "New"), ("2", "Extra")] []).popularity_types "2"
        = some "Extra" := by
  have h := type_reconciliation_prior_wins ⟨[("1", "Old")], []⟩ []
    [("1", "New"), ("2", "Extra")] [] (by decide)
  refine ⟨by decide, ?_, ?_⟩
  · rw [h.1 "1"]
    rfl
  · rw [h.1 "2"]
    rfl

/-- Two stores are observationally equal: every lookup in either top-level
mapping agrees.  Since the script writes the store with sorted keys, two
equivalent stores serialize to the identical file. -/
def StoreEquiv (s1 s2 : PopStore) : Prop :=
  (∀ k, dlookup s1.popularity_types k = dlookup s2.popularity_types k)
  ∧ (∀ k, dlookup s1.popularity_metrics k = dlookup s2.popularity_metrics k)

/-- C5 counterexample: with external-identifier mapping 123 to a and a fresh
fetch whose entry name is the numeric string 123, running the merger a
second time on its own output moves the sub-mapping to key a and re-adds
key 123, so the second output differs from the first. -/
theorem merger_not_idempotent :
    runMerge
        (some (runMerge (some ⟨[], []⟩) [("123", [("1", (1 : ℚ))])] []
          [("123", "a")]))
        [("123", [("1", (1 : ℚ))])] [] [("123", "a")]
      ≠ runMerge (some ⟨[], []⟩) [("123", [("1", (1 : ℚ))])] []
          [("123", "a")] := by
  decide

lemma dlookup_derase_none {α : Type} (m : Dict α) (k key : String)
    (h : dlookup m k = none) : dlookup (derase m key) k = none := by
  apply dlookup_eq_none_of_not_mem_keys
  intro hc
  have hmem : k ∈ keysOf m := (keysOf_derase_sublist m key).subset hc
  have hsome : (dlookup m k).isSome := (dlookup_isSome_iff_mem_keys m k).mpr hmem
  rw [h] at hsome
  simp at hsome

lemma nodupKeys_legacyStep (igdb_mapping : Dict String) (m : Dict Metrics)
    (key : String) (h : NodupKeys m) :
    NodupKeys (legacyStep igdb_mapping m key) := by
  by_cases hd : isDigits key
  · cases hig : dlookup igdb_mapping key with
    | none => simpa [legacyStep, hd, hig] using h
    | some gk =>
      simp only [legacyStep, hd, if_true, hig]
      by_cases hgm : (dlookup m gk).isSome
      · rw [if_pos hgm]
        exact nodupKeys_derase m key h
      · rw [if_neg hgm]
        cases hcase : dlookup m key with
        | none => exact nodupKeys_derase m key h
        | some v =>
          exact nodupKeys_derase (dinsert m gk v) key
            (nodupKeys_dinsert m gk v h)
  · simpa [legacyStep, hd] using h

lemma legacyStep_lookup_self_none (igdb_mapping : Dict String)
    (m : Dict Metrics) (key g : String) (h : NodupKeys m)
    (hk : isDigits key = true) (hg : dlookup igdb_mapping key = some g) :
    dlookup (legacyStep igdb_mapping m key) key = none := by
  simp only [legacyStep, hk, if_true, hg]
  by_cases hgm : (dlookup m g).isSome
  · rw [if_pos hgm]
    exact dlookup_derase_self m key h
  · rw [if_neg hgm]
    cases hcase : dlookup m key with
    | none => exact dlookup_derase_self m key h
    | some v =>
      exact dlookup_derase_self (dinsert m g v) key (nodupKeys_dinsert m g v h)

lemma legacyStep_lookup_none_preserved (igdb_mapping : Dict String)
    (m : Dict Metrics) (key k g : String)
    (hii : ∀ idk gk, dlookup igdb_mapping idk = some gk →
      isDigits gk = true → dlookup igdb_mapping gk = none)
    (hkd : isDigits k = true) (hkg : dlookup igdb_mapping k = some g)
    (hnone : dlookup m k = none) :
    dlookup (legacyStep igdb_mapping m key) k = none := by
  by_cases hd : isDigits key
  · cases hig : dlookup igdb_mapping key with
    | none => simpa [legacyStep, hd, hig] using hnone
    | some gk =>
      have hgk_ne : gk ≠ k := by
        intro he
        subst he
        rw [hii key gk hig hkd] at hkg
        exact Option.noConfusion hkg
      simp only [legacyStep, hd, if_true, hig]
      have hm' : dlookup
          (if (dlookup m gk).isSome then m
            else match dlookup m key with
              | some v => dinsert m gk v
              | none => m) k = none := by
        by_cases hgm : (dlookup m gk).isSome
        · rw [if_pos hgm]
          exact hnone
        · rw [if_neg hgm]
          cases hcase : dlookup m key with
          | none => exact hnone
          | some v =>
            rw [dlookup_dinsert_ne m gk k v hgk_ne]
            exact hnone
      exact dlookup_derase_none _ k key hm'
  · simpa [legacyStep, hd] using hnone

lemma legacy_fold_digit_absent (igdb_mapping : Dict String) (k g : String)
    (hii : ∀ idk gk, dlookup igdb_mapping idk = some gk →
      isDigits gk = true → dlookup igdb_mapping gk = none)
    (hkd : isDigits k = true) (hkg : dlookup igdb_mapping k = some g) :
    ∀ (keys : List String) (acc : Dict Metrics), NodupKeys acc →
      (dlookup acc k = none ∨ k ∈ keys) →
      dlookup (keys.foldl (legacyStep igdb_mapping) acc) k = none := by
  intro keys
  induction keys with
  | nil =>
    intro acc _ hdisj
    rcases hdisj with h | h
    · exact h
    · simp at h
  | cons key rest ih =>
    intro acc hnd hdisj
    have hnd' : NodupKeys (legacyStep igdb_mapping acc key) :=
      nodupKeys_legacyStep igdb_mapping acc key hnd
    by_cases hke : key = k
    · subst hke
      exact ih _ hnd'
        (Or.inl (legacyStep_lookup_self_none igdb_mapping acc key g hnd hkd hkg))
    · rcases hdisj with h | h
      · exact ih _ hnd'
          (Or.inl (legacyStep_lookup_none_preserved igdb_mapping acc key k g
            hii hkd hkg h))
      · rcases List.mem_cons.mp h with h1 | h1
        · exact absurd h1.symm hke
        · exact ih _ hnd' (Or.inr h1)

lemma legacy_digit_absent (igdb_mapping : Dict String) (m : Dict Metrics)
    (k g : String) (hnd : NodupKeys m)
    (hii : ∀ idk gk, dlookup igdb_mapping idk = some gk →
      isDigits gk = true → dlookup igdb_mapping gk = none)
    (hkd : isDigits k = true) (hkg : dlookup igdb_mapping k = some g) :
    dlookup (legacyReconcile igdb_mapping m) k = none := by
  apply legacy_fold_digit_absent igdb_mapping k g hii hkd hkg (keysOf m) m hnd
  cases hcase : dlookup m k with
  | none => exact Or.inl rfl
  | some v =>
    exact Or.inr ((dlookup_isSome_iff_mem_keys m k).mp (by simp [hcase]))

lemma foldl_fixed {α β : Type} (f : α → β → α) (a : α) (l : List β)
    (h : ∀ x ∈ l, f a x = a) : l.foldl f a = a := by
  induction l with
  | nil => rfl
  | cons x rest ih =>
    have hx : f a x = a := h x (List.mem_cons_self x rest)
    rw [List.foldl_cons, hx]
    exact ih (fun y hy => h y (List.mem_cons_of_mem x hy))

lemma legacy_id (igdb_mapping : Dict String) (m : Dict Metrics)
    (h : ∀ k ∈ keysOf m, isDigits k = true → dlookup igdb_mapping k = none) :
    legacyReconcile igdb_mapping m = m := by
  apply foldl_fixed
  intro key hk
  by_cases hd : isDigits key
  · simp [legacyStep, hd, h key hk hd]
  · simp [legacyStep, hd]

lemma nodupKeys_overlay {α : Type} :
    ∀ (l base : Dict α), NodupKeys base → NodupKeys (overlay base l) := by
  intro l
  induction l with
  | nil =>
    intro base h
    exact h
  | cons kv rest ih =>
    intro base h
    exact ih (dinsert base kv.1 kv.2) (nodupKeys_dinsert base kv.1 kv.2 h)

/-- C5 amended: the merger is idempotent up to store equivalence provided
the inputs are well-formed dicts and no purely numeric string is at the same
time a key of the external-identifier mapping and either a freshly fetched
entry name or a canonical name that mapping resolves to.  Without that
proviso the counterexample theorem shows a second run changes the store. -/
theorem merger_idempotent_amended
    (existing : Option PopStore) (fetched : Dict Metrics)
    (types_dict igdb_mapping : Dict String)
    (hf : NodupKeys fetched) (ht : NodupKeys types_dict)
    (hex : ∀ st, existing = some st →
      NodupKeys st.popularity_types ∧ NodupKeys st.popularity_metrics)
    (hi : ∀ k ∈ keysOf fetched, isDigits k = true →
      dlookup igdb_mapping k = none)
    (hii : ∀ idk gk, dlookup igdb_mapping idk = some gk →
      isDigits gk = true → dlookup igdb_mapping gk = none) :
    StoreEquiv
      (runMerge (some (runMerge existing fetched types_dict igdb_mapping))
        fetched types_dict igdb_mapping)
      (runMerge existing fetched types_dict igdb_mapping) := by
  have hfetch_digit : ∀ k g, isDigits k = true →
      dlookup igdb_mapping k = some g → dlookup fetched k = none := by
    intro k g hkd hkg
    cases hcase : dlookup fetched k with
    | none => rfl
    | some w =>
      have hmem : k ∈ keysOf fetched :=
        (dlookup_isSome_iff_mem_keys fetched k).mp (by simp [hcase])
      rw [hi k hmem hkd] at hkg
      exact Option.noConfusion hkg
  have hM1digit : ∀ k g, isDigits k = true → dlookup igdb_mapping k = some g →
      dlookup (runMerge existing fetched types_dict
        igdb_mapping).popularity_metrics k = none := by
    intro k g hkd hkg
    cases existing with
    | none => exact hfetch_digit k g hkd hkg
    | some st =>
      show dlookup (overlay (legacyReconcile igdb_mapping
        st.popularity_metrics) fetched) k = none
      rw [overlay_lookup fetched _ hf k, hfetch_digit k g hkd hkg,
        legacy_digit_absent igdb_mapping st.popularity_metrics k g
          (hex st rfl).2 hii hkd hkg]
      rfl
  have hM1cond : ∀ k ∈ keysOf (runMerge existing fetched types_dict
      igdb_mapping).popularity_metrics, isDigits k = true →
      dlookup igdb_mapping k = none := by
    intro k hk hkd
    cases hcase : dlookup igdb_mapping k with
    | none => rfl
    | some g =>
      have h1 := hM1digit k g hkd hcase
      have h2 := (dlookup_isSome_iff_mem_keys _ k).mpr hk
      rw [h1] at h2
      exact absurd h2 (by simp)
  have hlegacyM1 : legacyReconcile igdb_mapping
      (runMerge existing fetched types_dict igdb_mapping).popularity_metrics
      = (runMerge existing fetched types_dict igdb_mapping).popularity_metrics :=
    legacy_id igdb_mapping _ hM1cond
  have hT1nodup : NodupKeys (runMerge existing fetched types_dict
      igdb_mapping).popularity_types := by
    cases existing with
    | none => exact ht
    | some st => exact nodupKeys_overlay st.popularity_types types_dict ht
  constructor
  · intro k
    show dlookup (overlay types_dict (runMerge existing fetched types_dict
      igdb_mapping).popularity_types) k = _
    rw [overlay_lookup _ types_dict hT1nodup k]
    cases hcase : dlookup (runMerge existing fetched types_dict
        igdb_mapping).popularity_types k with
    | some w => simp
    | none =>
      have htd : dlookup types_dict k = none := by
        cases existing with
        | none => exact hcase
        | some st =>
          have := hcase
          rw [show (runMerge (some st) fetched types_dict
              igdb_mapping).popularity_types
              = overlay types_dict st.popularity_types from rfl,
            overlay_lookup st.popularity_types types_dict (hex st rfl).1 k]
            at this
          cases h1 : dlookup st.popularity_types k with
          | some w => simp [h1] at this
          | none =>
            rw [h1] at this
            simpa using this
      simp [htd]
  · intro k
    show dlookup (overlay (legacyReconcile igdb_mapping
      (runMerge existing fetched types_dict igdb_mapping).popularity_metrics)
      fetched) k = _
    rw [hlegacyM1, overlay_lookup fetched _ hf k]
    cases hcase : dlookup fetched k with
    | none => simp
    | some w =>
      have hM1 : dlookup (runMerge existing fetched types_dict
          igdb_mapping).popularity_metrics k = some w := by
        cases existing with
        | none => exact hcase
        | some st =>
          show dlookup (overlay (legacyReconcile igdb_mapping
            st.popularity_metrics) fetched) k = some w
          rw [overlay_lookup fetched _ hf k, hcase]
          rfl
      simp [hM1]

/-- Witness for C5 amended at concrete well-formed inputs: one prior entry,
one fetched canonical entry, one type name, empty identifier mapping. -/
theorem merger_idempotent_amended_witness :
    NodupKeys ([("a", [("1", (1 : ℚ))])] : Dict Metrics)
    ∧ NodupKeys ([("1", "Visits")] : Dict String)
    ∧ StoreEquiv
        (runMerge (some (runMerge (some ⟨[("2", "Old")], [("b", [("2", (4 : ℚ))])]⟩)
          [("a", [("1", (1 : ℚ))])] [("1", "Visits")] []))
          [("a", [("1", (1 : ℚ))])] [("1", "Visits")] [])
        (runMerge (some ⟨[("2", "Old")], [("b", [("2", (4 : ℚ))])]⟩)
          [("a", [("1", (1 : ℚ))])] [("1", "Visits")] []) := by
  refine ⟨by decide, by decide, ?_⟩
  apply merger_idempotent_amended
  · decide
  · decide
  · intro st h
    cases h
    exact ⟨by decide, by decide⟩
  · intro k hk hkd
    rfl
  · intro idk gk h
    exact absurd h (by simp [dlookup])

/-! ## Ranker and filter (tools/rank_games_by_popularity.py, get_port_data) -/

/-- Python str.replace for the fixed pattern ".zip" with the empty
replacement: drop every occurrence, scanning left to right. -/
def replaceZip : List Char → List Char
  | '.' :: 'z' :: 'i' :: 'p' :: rest => replaceZip rest
  | c :: rest => c :: replaceZip rest
  | [] => []

/-- Python str.lower of a string, as a list of characters. -/
def lowerList (s : String) : List Char := s.data.map Char.toLower

/-- The attr object of one catalog entry; every field is read with a
default (title falls back to the port key, rtr to False, genres to an empty
list, availability to None). -/
structure PortAttr where
  title : Option String
  rtr : Option Bool
  genres : Option (List String)
  availability : Option String

/-- One value of ports_info["ports"]: possibly carrying an attr object. -/
structure PortInfo where
  attr : Option PortAttr

/-- The empty attr dict used by port_info.get with default. -/
def emptyAttr : PortAttr := ⟨none, none, none, none⟩

/-- Record appended to port_data for one retained port (get_port_data,
lines 93 to 99). -/
structure PortEntry where
  name : String
  title : String
  rtr : Bool
  genres : List String
  availability : Option String
deriving DecidableEq

/-- Build the record for one port: strip ".zip" from the dict key, then read
the attr fields with their defaults. -/
def buildEntry (port_name : String) (info : PortInfo) : PortEntry :=
  let attr := info.attr.getD emptyAttr
  let port_key := String.mk (replaceZip port_name.data)
  ⟨port_key, attr.title.getD port_key, attr.rtr.getD false,
    attr.genres.getD [], attr.availability⟩

/-- get_port_data (rank_games_by_popularity.py, lines 63 to 101): walk the
ports mapping in order; skip an entry when the ready-to-run flag is
requested but absent or false; skip an entry when a genre filter is given
and its lowercased value is not among the entry's lowercased genres;
otherwise append the built record. -/
def get_port_data (ports : List (String × PortInfo)) (only_rtr : Bool)
    (genre_filter : Option String) : List PortEntry :=
  match ports with
  | [] => []
  | (port_name, info) :: rest =>
    let attr := info.attr.getD emptyAttr
    if only_rtr && !(attr.rtr.getD false) then
      get_port_data rest only_rtr genre_filter
    else
      match genre_filter with
      | some g =>
        if lowerList g ∈ (attr.genres.getD []).map lowerList then
          buildEntry port_name info :: get_port_data rest only_rtr genre_filter
        else
          get_port_data rest only_rtr genre_filter
      | none =>
        buildEntry port_name info :: get_port_data rest only_rtr genre_filter

/-- The conjunctive retention predicate the specification describes: pass
the ready-to-run test when that flag is set, and have the requested genre
under case-insensitive exact membership when a genre is given. -/
def keepsPort (only_rtr : Bool) (genre_filter : Option String)
    (pr : String × PortInfo) : Bool :=
  let attr := pr.2.attr.getD emptyAttr
  (!only_rtr || attr.rtr.getD false)
    && (match genre_filter with
        | none => true
        | some g => decide (lowerList g ∈ (attr.genres.getD []).map lowerList))

/-- The three example catalog entries of the claim: A ready to run with
genre puzzle, B not ready to run with genre puzzle, C ready to run with
genre arcade. -/
def examplePorts : List (String × PortInfo) :=
  [("a.zip", ⟨some ⟨some "A", some true, some ["Puzzle"], none⟩⟩),
   ("b.zip", ⟨some ⟨some "B", some false, some ["puzzle"], none⟩⟩),
   ("c.zip", ⟨some ⟨some "C", some true, some ["arcade"], none⟩⟩)]

/-- C7: filtering is conjunctive, i.e. get_port_data retains exactly the
ports passing both the ready-to-run test and the case-insensitive genre
membership test, in order; on the concrete A, B, C example with the
ready-to-run flag and genre puzzle, exactly A is retained. -/
theorem ranker_filter_conjunctive :
    (∀ (ports : List (String × PortInfo)) (only_rtr : Bool)
      (genre_filter : Option String),
      get_port_data ports only_rtr genre_filter
        = (ports.filter (keepsPort only_rtr genre_filter)).map
            (fun pr => buildEntry pr.1 pr.2))
    ∧ get_port_data examplePorts true (some "puzzle")
        = [⟨"a", "A", true, ["Puzzle"], none⟩] := by
  constructor
  · intro ports only_rtr genre_filter
    induction ports with
    | nil => rfl
    | cons pr rest ih =>
      obtain ⟨port_name, info⟩ := pr
      cases honly : only_rtr with
      | false =>
        subst honly
        cases genre_filter with
        | none =>
          simp [get_port_data, keepsPort, List.filter_cons, ih]
        | some g =>
          by_cases hmem : lowerList g ∈
              ((info.attr.getD emptyAttr).genres.getD []).map lowerList
          · simp [get_port_data, keepsPort, List.filter_cons, hmem, ih]
          · simp [get_port_data, keepsPort, List.filter_cons, hmem, ih]
      | true =>
        subst honly
        cases hr : (info.attr.getD emptyAttr).rtr.getD false with
        | false =>
          simp [get_port_data, keepsPort, List.filter_cons, hr, ih]
        | true =>
          cases genre_filter with
          | none =>
            simp [get_port_data, keepsPort, List.filter_cons, hr, ih]
          | some g =>
            by_cases hmem : lowerList g ∈
                ((info.attr.getD emptyAttr).genres.getD []).map lowerList
            · simp [get_port_data, keepsPort, List.filter_cons, hr, hmem, ih]
            · simp [get_port_data, keepsPort, List.filter_cons, hr, hmem, ih]
  · decide

/-! ## ID Extractor merge (tools/update_game_ids.py, extract_game_ids) -/

lemma mem_of_dlookup {α : Type} (m : Dict α) (k : String) (v : α)
    (h : dlookup m k = some v) : (k, v) ∈ m := by
  induction m with
  | nil => simp [dlookup] at h
  | cons p rest ih =>
    obtain ⟨k0, w⟩ := p
    by_cases hk : k0 = k
    · subst hk
      simp only [dlookup, if_pos rfl] at h
      cases h
      exact List.mem_cons_self _ _
    · simp only [dlookup, if_neg hk] at h
      exact List.mem_cons_of_mem _ (ih h)

/-- Per-entry field update (update_game_ids.py, lines 82 to 86): write a
freshly extracted field into the existing entry when the field is missing or
its value differs. -/
def updateFields {α : Type} [DecidableEq α] (old ids : Dict α) : Dict α :=
  ids.foldl
    (fun o fv => if dlookup o fv.1 ≠ some fv.2 then dinsert o fv.1 fv.2 else o)
    old

/-- Merge loop of extract_game_ids (update_game_ids.py, lines 75 to 87):
start from a copy of the existing index; entries absent from it are added
wholesale, entries present get their fields updated one by one. -/
def merge_game_ids {α : Type} [DecidableEq α] (existing new_ids : Dict (Dict α)) :
    Dict (Dict α) :=
  new_ids.foldl
    (fun merged pv =>
      match dlookup merged pv.1 with
      | none => dinsert merged pv.1 pv.2
      | some old => dinsert merged pv.1 (updateFields old pv.2))
    existing

lemma updateFields_lookup {α : Type} [DecidableEq α] :
    ∀ (ids old : Dict α), NodupKeys ids → ∀ f : String,
      dlookup (updateFields old ids) f = (dlookup ids f <|> dlookup old f) := by
  intro ids
  induction ids with
  | nil =>
    intro old _ f
    simp [updateFields, dlookup]
  | cons gv rest ih =>
    intro old hnd f
    obtain ⟨g, v⟩ := gv
    have h' : NodupKeys rest := (nodupKeys_cons hnd).2
    have hnotmem : g ∉ keysOf rest := (nodupKeys_cons hnd).1
    have hstep : updateFields old ((g, v) :: rest)
        = updateFields (if dlookup old g ≠ some v then dinsert old g v else old)
            rest := rfl
    set old' := if dlookup old g ≠ some v then dinsert old g v else old with hold'
    have hself : dlookup old' g = some v := by
      rw [hold']
      by_cases hc : dlookup old g ≠ some v
      · rw [if_pos hc]
        exact dlookup_dinsert_self old g v
      · rw [if_neg hc]
        exact not_not.mp hc
    have hother : ∀ f1, f1 ≠ g → dlookup old' f1 = dlookup old f1 := by
      intro f1 hne
      rw [hold']
      by_cases hc : dlookup old g ≠ some v
      · rw [if_pos hc]
        exact dlookup_dinsert_ne old g f1 v (fun he => hne he.symm)
      · rw [if_neg hc]
    rw [hstep, ih old' h' f]
    by_cases hf : f = g
    · subst hf
      rw [dlookup_eq_none_of_not_mem_keys rest f hnotmem, hself]
      simp [dlookup]
    · rw [hother f hf]
      have hgf : g ≠ f := fun h => hf h.symm
      have : dlookup ((g, v) :: rest) f = dlookup rest f := by
        simp [dlookup, hgf]
      rw [this]

lemma merge_game_ids_lookup {α : Type} [DecidableEq α] :
    ∀ (new_ids existing : Dict (Dict α)), NodupKeys new_ids → ∀ e : String,
      dlookup (merge_game_ids existing new_ids) e
        = match dlookup new_ids e with
          | none => dlookup existing e
          | some ids =>
            some (match dlookup existing e with
                  | none => ids
                  | some old => updateFields old ids) := by
  intro new_ids
  induction new_ids with
  | nil =>
    intro existing _ e
    simp [merge_game_ids, dlookup]
  | cons pv rest ih =>
    intro existing hnd e
    obtain ⟨p, ids⟩ := pv
    have h' : NodupKeys rest := (nodupKeys_cons hnd).2
    have hnotmem : p ∉ keysOf rest := (nodupKeys_cons hnd).1
    set acc' := (match dlookup existing p with
      | none => dinsert existing p ids
      | some old => dinsert existing p (updateFields old ids)) with hacc'
    have hstep : merge_game_ids existing ((p, ids) :: rest)
        = merge_game_ids acc' rest := rfl
    rw [hstep, ih acc' h' e]
    by_cases he : e = p
    · subst he
      rw [dlookup_eq_none_of_not_mem_keys rest e hnotmem]
      have hacc : dlookup acc' e
          = some (match dlookup existing e with
                  | none => ids
                  | some old => updateFields old ids) := by
        rw [hacc']
        cases hcase : dlookup existing e with
        | none => exact dlookup_dinsert_self existing e ids
        | some old => exact dlookup_dinsert_self existing e (updateFields old ids)
      rw [hacc]
      simp [dlookup]
    · have hacc : dlookup acc' e = dlookup existing e := by
        rw [hacc']
        cases hcase : dlookup existing p with
        | none => exact dlookup_dinsert_ne existing p e ids (fun h => he h.symm)
        | some old =>
          exact dlookup_dinsert_ne existing p e (updateFields old ids)
            (fun h => he h.symm)
      have hpe : p ≠ e := fun h => he h.symm
      have hcons : dlookup ((p, ids) :: rest) e = dlookup rest e := by
        simp [dlookup, hpe]
      rw [hacc, hcons]

/-- C8: merging freshly extracted identifiers into the persisted index never
removes anything: every prior entry survives with every prior field still
present; an entry absent from the prior index is added with exactly its
freshly extracted fields; a prior entry not freshly extracted is untouched;
and for an entry present in both, the merged entry is the field-by-field
update whose lookups give the freshly extracted value when present and the
prior value otherwise. -/
theorem game_ids_merge_preserves {α : Type} [DecidableEq α]
    (existing new_ids : Dict (Dict α))
    (hnd : NodupKeys new_ids)
    (hinner : ∀ pv ∈ new_ids, NodupKeys pv.2) :
    (∀ e v f x, dlookup existing e = some v → dlookup v f = some x →
      ∃ w, dlookup (merge_game_ids existing new_ids) e = some w
        ∧ (dlookup w f).isSome)
    ∧ (∀ e, dlookup existing e = none →
        dlookup (merge_game_ids existing new_ids) e = dlookup new_ids e)
    ∧ (∀ e v, dlookup existing e = some v → dlookup new_ids e = none →
        dlookup (merge_game_ids existing new_ids) e = some v)
    ∧ (∀ e v ids, dlookup existing e = some v → dlookup new_ids e = some ids →
        dlookup (merge_game_ids existing new_ids) e
          = some (updateFields v ids)
        ∧ ∀ f, dlookup (updateFields v ids) f
            = (dlookup ids f <|> dlookup v f)) := by
  refine ⟨?_, ?_, ?_, ?_⟩
  · intro e v f x hv hf
    cases hcase : dlookup new_ids e with
    | none =>
      refine ⟨v, ?_, by simp [hf]⟩
      rw [merge_game_ids_lookup new_ids existing hnd e, hcase, hv]
    | some ids =>
      refine ⟨updateFields v ids, ?_, ?_⟩
      · rw [merge_game_ids_lookup new_ids existing hnd e, hcase, hv]
      · rw [updateFields_lookup ids v
          (hinner (e, ids) (mem_of_dlookup new_ids e ids hcase)) f]
        cases dlookup ids f with
        | none => simp [hf]
        | some y => simp
  · intro e he
    rw [merge_game_ids_lookup new_ids existing hnd e]
    cases hcase : dlookup new_ids e with
    | none => exact he
    | some ids => rw [he]
  · intro e v hv hnone
    rw [merge_game_ids_lookup new_ids existing hnd e, hnone]
    exact hv
  · intro e v ids hv hids
    constructor
    · rw [merge_game_ids_lookup new_ids existing hnd e, hids, hv]
    · intro f
      exact updateFields_lookup ids v
        (hinner (e, ids) (mem_of_dlookup new_ids e ids hids)) f

/-- Witness for C8: prior index with entries p1 and p2, fresh extraction for
p1 (changed field) and p3 (new entry); p2 survives untouched, p3 is added
wholesale, and p1 is updated field by field with fresh values winning. -/
theorem game_ids_merge_preserves_witness :
    NodupKeys ([("p1", [("igdb_id", 7)]), ("p3", [("steam_id", 5)])] :
      Dict (Dict Nat))
    ∧ (∀ pv ∈ ([("p1", [("igdb_id", 7)]), ("p3", [("steam_id", 5)])] :
        Dict (Dict Nat)), NodupKeys pv.2)
    ∧ dlookup (merge_game_ids
        [("p1", [("igdb_id", 1)]), ("p2", [("steam_id", 2)])]
        [("p1", [("igdb_id", 7)]), ("p3", [("steam_id", 5)])]) "p2"
        = some [("steam_id", 2)]
    ∧ dlookup (merge_game_ids
        [("p1", [("igdb_id", 1)]), ("p2", [("steam_id", 2)])]
        [("p1", [("igdb_id", 7)]), ("p3", [("steam_id", 5)])]) "p3"
        = dlookup ([("p1", [("igdb_id", 7)]), ("p3", [("steam_id", 5)])] :
            Dict (Dict Nat)) "p3"
    ∧ dlookup (merge_game_ids
        [("p1", [("igdb_id", 1)]), ("p2", [("steam_id", 2)])]
        [("p1", [("igdb_id", 7)]), ("p3", [("steam_id", 5)])]) "p1"
        = some (updateFields [("igdb_id", 1)] [("igdb_id", 7)]) := by
  have h := game_ids_merge_preserves
    [("p1", [("igdb_id", 1)]), ("p2", [("steam_id", 2)])]
    [("p1", [("igdb_id", 7)]), ("p3", [("steam_id", 5)])]
    (by decide) (by decide)
  refine ⟨by decide, by decide, ?_, ?_, ?_⟩
  · exact h.2.2.1 "p2" [("steam_id", 2)] rfl rfl
  · exact h.2.1 "p3" rfl
  · exact (h.2.2.2 "p1" [("igdb_id", 1)] [("igdb_id", 7)] rfl rfl).1

/-! ## ID removal with backup (tools/update_game_ids.py, remove_ids_from_ports) -/

/-- The fixed removal field list (update_game_ids.py, line 112), a strict
superset of the extraction list: it also carries igdb_visits, which the
extractor never writes. -/
def id_fields_remove : List String :=
  ["igdb_id", "steam_id", "itchio_url", "igdb_visits"]

/-- One per-entry metadata file: the attr object (possibly absent) holding
the identifier fields, plus all content outside attr, which the removal
loop never touches. -/
structure PortData (α β : Type) where
  attr : Option (Dict α)
  rest : β
deriving DecidableEq

/-- Body of the field loop (update_game_ids.py, lines 141 to 144): delete
the field from attr when present and raise the modified flag. -/
def removeFieldsStep {α : Type} (st : Dict α × Bool) (field : String) :
    Dict α × Bool :=
  if (dlookup st.1 field).isSome then (derase st.1 field, true) else st

/-- Processing of one port.json by remove_ids_from_ports (update_game_ids.py,
lines 131 to 156): delete each listed field from attr; when at least one was
deleted, the original content becomes the .bak sibling and the stripped data
is written to the live path, otherwise nothing on disk changes.  Returns the
live content paired with the backup content (none when no backup is made). -/
def remove_ids_port {α β : Type} (p : PortData α β) :
    PortData α β × Option (PortData α β) :=
  match p.attr with
  | none => (p, none)
  | some a =>
    let res := id_fields_remove.foldl removeFieldsStep (a, false)
    if res.2 then (⟨some res.1, p.rest⟩, some p) else (p, none)

lemma removeFold_flag {α : Type} :
    ∀ (fields : List String) (d : Dict α) (b : Bool),
      (fields.foldl removeFieldsStep (d, b)).2
        = (b || fields.any (fun f => (dlookup d f).isSome)) := by
  intro fields
  induction fields with
  | nil =>
    intro d b
    simp
  | cons f1 rest ih =>
    intro d b
    by_cases hp : (dlookup d f1).isSome
    · rw [List.foldl_cons, show removeFieldsStep (d, b) f1
        = (derase d f1, true) from by simp [removeFieldsStep, hp], ih]
      simp [hp]
    · rw [List.foldl_cons, show removeFieldsStep (d, b) f1 = (d, b) from by
        simp [removeFieldsStep, hp], ih]
      simp [hp]

lemma removeFold_dict {α : Type} :
    ∀ (fields : List String) (d : Dict α) (b : Bool), fields.Nodup →
      NodupKeys d → ∀ f : String,
      dlookup ((fields.foldl removeFieldsStep (d, b)).1) f
        = if f ∈ fields then none else dlookup d f := by
  intro fields
  induction fields with
  | nil =>
    intro d b _ _ f
    simp
  | cons f1 rest ih =>
    intro d b hnd hd f
    have hf1 : f1 ∉ rest := (List.nodup_cons.mp hnd).1
    have hrest : rest.Nodup := (List.nodup_cons.mp hnd).2
    by_cases hp : (dlookup d f1).isSome
    · rw [List.foldl_cons, show removeFieldsStep (d, b) f1
        = (derase d f1, true) from by simp [removeFieldsStep, hp],
        ih (derase d f1) true hrest (nodupKeys_derase d f1 hd) f]
      by_cases hf : f = f1
      · subst hf
        simp [hf1, dlookup_derase_self d f hd]
      · by_cases hmem : f ∈ rest
        · simp [hmem, hf]
        · simp [hmem, hf, dlookup_derase_ne d f1 f (fun h => hf h.symm)]
    · rw [List.foldl_cons, show removeFieldsStep (d, b) f1 = (d, b) from by
        simp [removeFieldsStep, hp], ih d b hrest hd f]
      by_cases hf : f = f1
      · subst hf
        have hnone : dlookup d f = none := by
          cases hcase : dlookup d f with
          | none => rfl
          | some v => simp [hcase] at hp
        simp [hf1, hnone]
      · by_cases hmem : f ∈ rest <;> simp [hmem, hf]

/-- C9: processing one metadata file with the removal operation: when the
attr object holds at least one listed field, the backup equals the original
content, everything outside attr is unchanged, and the live attr is the
original with exactly the listed fields deleted; when attr holds no listed
field, or there is no attr object at all, the file is left untouched with
no backup. -/
theorem removal_backup_and_frame {α β : Type} (p : PortData α β) :
    (∀ a : Dict α, p.attr = some a → NodupKeys a →
      ((∃ f ∈ id_fields_remove, (dlookup a f).isSome) →
        (remove_ids_port p).2 = some p
        ∧ (remove_ids_port p).1.rest = p.rest
        ∧ ∃ a2, (remove_ids_port p).1.attr = some a2
            ∧ ∀ f, dlookup a2 f =
                if f ∈ id_fields_remove then none else dlookup a f)
      ∧ ((∀ f ∈ id_fields_remove, dlookup a f = none) →
        remove_ids_port p = (p, none)))
    ∧ (p.attr = none → remove_ids_port p = (p, none)) := by
  constructor
  · intro a ha hnd
    have hflag : (id_fields_remove.foldl removeFieldsStep (a, false)).2
        = id_fields_remove.any (fun f => (dlookup a f).isSome) := by
      rw [removeFold_flag id_fields_remove a false]
      simp
    constructor
    · intro hex
      have hany : id_fields_remove.any (fun f => (dlookup a f).isSome) = true := by
        rw [List.any_eq_true]
        obtain ⟨f, hf, hs⟩ := hex
        exact ⟨f, hf, hs⟩
      have hproc : remove_ids_port p
          = (⟨some (id_fields_remove.foldl removeFieldsStep (a, false)).1,
              p.rest⟩, some p) := by
        obtain ⟨pa, pr⟩ := p
        simp only [PortData.mk.injEq] at ha ⊢
        cases pa with
        | none => exact Option.noConfusion ha
        | some a0 =>
          have : a0 = a := Option.some.injEq a0 a |>.mp ha
          subst this
          simp only [remove_ids_port]
          rw [if_pos (by rw [hflag]; exact hany)]
      rw [hproc]
      refine ⟨rfl, rfl, (id_fields_remove.foldl removeFieldsStep (a, false)).1,
        rfl, ?_⟩
      intro f
      exact removeFold_dict id_fields_remove a false (by decide) hnd f
    · intro hnone
      have hany : id_fields_remove.any (fun f => (dlookup a f).isSome) = false := by
        rw [Bool.eq_false_iff]
        intro hc
        rw [List.any_eq_true] at hc
        obtain ⟨f, hf, hs⟩ := hc
        rw [hnone f hf] at hs
        simp at hs
      obtain ⟨pa, pr⟩ := p
      simp only at ha
      cases pa with
      | none => exact Option.noConfusion ha
      | some a0 =>
        have : a0 = a := Option.some.injEq a0 a |>.mp ha
        subst this
        simp only [remove_ids_port]
        rw [if_neg (by rw [hflag, hany]; exact Bool.false_ne_true)]
  · intro ha
    obtain ⟨pa, pr⟩ := p
    simp only at ha
    subst ha
    rfl

/-- Witness for C9 at two concrete files: one whose attr holds igdb_id plus
an unrelated field (backed up and stripped), one with only the unrelated
field (untouched). -/
theorem removal_backup_and_frame_witness :
    ((⟨some [("igdb_id", 1), ("other", 2)], 5⟩ : PortData Nat Nat).attr
      = some [("igdb_id", 1), ("other", 2)])
    ∧ NodupKeys ([("igdb_id", 1), ("other", 2)] : Dict Nat)
    ∧ (∃ f ∈ id_fields_remove,
        (dlookup ([("igdb_id", 1), ("other", 2)] : Dict Nat) f).isSome)
    ∧ (remove_ids_port (⟨some [("igdb_id", 1), ("other", 2)], 5⟩ :
        PortData Nat Nat)).2 = some ⟨some [("igdb_id", 1), ("other", 2)], 5⟩
    ∧ (remove_ids_port (⟨some [("igdb_id", 1), ("other", 2)], 5⟩ :
        PortData Nat Nat)).1.rest = 5
    ∧ (∀ f ∈ id_fields_remove,
        dlookup ([("other", 2)] : Dict Nat) f = none)
    ∧ remove_ids_port (⟨some [("other", 2)], 5⟩ : PortData Nat Nat)
        = (⟨some [("other", 2)], 5⟩, none) := by
  have h1 := (removal_backup_and_frame
    (⟨some [("igdb_id", 1), ("other", 2)], 5⟩ : PortData Nat Nat)).1
    [("igdb_id", 1), ("other", 2)] rfl (by decide)
  have h2 := (removal_backup_and_frame
    (⟨some [("other", 2)], 5⟩ : PortData Nat Nat)).1 [("other", 2)] rfl
    (by decide)
  have hex : ∃ f ∈ id_fields_remove,
      (dlookup ([("igdb_id", 1), ("other", 2)] : Dict Nat) f).isSome := by
    decide
  have hnone : ∀ f ∈ id_fields_remove,
      dlookup ([("other", 2)] : Dict Nat) f = none := by
    decide
  exact ⟨rfl, by decide, hex, (h1.1 hex).1, (h1.1 hex).2.1, hnone, h2.2 hnone⟩

end PortMasterInfo
